import Mathlib

/-!
Verification of the chord-data enrichment pipeline (src/parser/parser.ts and
src/parser/types.ts), shallowly embedded in Lean.

JavaScript strings are modelled as Lean String (character lists); JavaScript
numbers appearing here are integers or exact multiples of 0.5, both exactly
representable in IEEE doubles, so they are modelled as Int / ℚ.  The external
music-theory service (the tonal library) is modelled as an abstract record of
functions, `TheoryService`, matching the narrow interface the parser consumes;
an empty string stands for a null / unresolved result, mirroring JavaScript
falsiness of "".
-/

/-- JavaScript string-or idiom `a || b` for strings: "" is falsy. -/
def jsOr (a b : String) : String := if a = "" then b else a

/-- JavaScript `map[k] || b` where the map value may be undefined (none)
or an empty (falsy) string. -/
def jsOrS (o : Option String) (b : String) : String :=
  match o with
  | none => b
  | some v => if v = "" then b else v

/-- Bool test that pat is an initial segment of l (character-exact). -/
def startsWithL : List Char → List Char → Bool
  | [], _ => true
  | _ :: _, [] => false
  | p :: ps, c :: cs => p == c && startsWithL ps cs

/-- Bool test that pat occurs contiguously inside l. -/
def containsL (pat : List Char) : List Char → Bool
  | [] => pat.isEmpty
  | c :: rest => startsWithL pat (c :: rest) || containsL pat rest

/-- JavaScript `s.includes(t)`: t occurs contiguously in s. -/
def includes (s t : String) : Bool := containsL t.toList s.toList

/-- JavaScript `s.split("/")` for the single-character separator "/" used by
the parser (parser.ts line 133). -/
def splitOnSlash : List Char → List (List Char)
  | [] => [[]]
  | c :: rest =>
    let parts := splitOnSlash rest
    if c = '/' then [] :: parts
    else
      match parts with
      | [] => [[c]]
      | p :: ps => (c :: p) :: ps

/-- Case-insensitive match of pat at the head of l (ASCII lower-casing, the
behaviour of the /gi regular-expression flags on the inputs involved). -/
def ciMatch : List Char → List Char → Bool
  | [], _ => true
  | _ :: _, [] => false
  | p :: ps, c :: cs => p.toLower == c.toLower && ciMatch ps cs

/-- Global case-insensitive replace of pat by rep, scanning left to right
without rescanning the replacement: JavaScript `s.replace(/pat/gi, rep)`.
The fuel argument (instantiated with the list length) bounds the scan; every
step consumes at least one character, so the fuel never runs out on the
instantiations used below. -/
def replaceCI (pat rep : List Char) : Nat → List Char → List Char
  | 0, l => l
  | _ + 1, [] => []
  | fuel + 1, c :: rest =>
    if ciMatch pat (c :: rest) then
      rep ++ replaceCI pat rep fuel (List.drop (pat.length - 1) rest)
    else c :: replaceCI pat rep fuel rest

/-- parser.ts lines 93-95: `key.replace(/sharp/gi, "#").replace(/flat/gi, "b")`. -/
def normalizeKey (key : String) : String :=
  let l1 := replaceCI "sharp".toList "#".toList key.toList.length key.toList
  (replaceCI "flat".toList "b".toList l1.length l1).asString

/-- parser.ts lines 15-61: the suffix-code → symbol-fragment lookup table,
in source order. -/
def SUFFIX_MAP : List (String × String) := [
  ("major", ""),
  ("minor", "m"),
  ("dim", "dim"),
  ("dim7", "dim7"),
  ("sus", "sus4"),
  ("sus2", "sus2"),
  ("sus4", "sus4"),
  ("sus2sus4", "sus2sus4"),
  ("7sus4", "7sus4"),
  ("alt", "alt"),
  ("aug", "aug"),
  ("5", "5"),
  ("6", "6"),
  ("69", "69"),
  ("7", "7"),
  ("7b5", "7b5"),
  ("aug7", "7#5"),
  ("9", "9"),
  ("9b5", "9b5"),
  ("aug9", "9#5"),
  ("7b9", "7b9"),
  ("7#9", "7#9"),
  ("11", "11"),
  ("9#11", "9#11"),
  ("13", "13"),
  ("maj7", "maj7"),
  ("maj7b5", "maj7b5"),
  ("maj7#5", "maj7#5"),
  ("maj7sus2", "maj7sus2"),
  ("maj9", "maj9"),
  ("maj11", "maj11"),
  ("maj13", "maj13"),
  ("m6", "m6"),
  ("m69", "m69"),
  ("m7", "m7"),
  ("m7b5", "m7b5"),
  ("m9", "m9"),
  ("m11", "m11"),
  ("mmaj7", "m(maj7)"),
  ("mmaj7b5", "m7b5(maj7)"),
  ("mmaj9", "m9(maj7)"),
  ("mmaj11", "m11(maj7)"),
  ("add9", "add9"),
  ("madd9", "madd9"),
  ("add11", "add11")]

/-- Association-list lookup, the JavaScript `object[k]` read (none = undefined). -/
def getA {α : Type} : List (String × α) → String → Option α
  | [], _ => none
  | (k', v) :: rest, k => if k' = k then some v else getA rest k

/-- Association-list write `object[k] = v`: replaces an existing binding in
place, otherwise appends (JavaScript object key-insertion order). -/
def setA {α : Type} : List (String × α) → String → α → List (String × α)
  | [], k, v => [(k, v)]
  | (k', v') :: rest, k, v =>
    if k' = k then (k, v) :: rest else (k', v') :: setA rest k v

/-- parser.ts lines 131-141: build the chord symbol for a key and suffix code.
`SUFFIX_MAP[x] || x` falls back to the raw code when the table entry is
missing (undefined) or the empty string — JavaScript falsiness. -/
def buildChordSymbol (key suffix : String) : String :=
  if includes suffix "/" then
    let parts := (splitOnSlash suffix.toList).map List.asString
    let baseSuffix := parts.headD ""
    let bass := (parts.drop 1).headD ""
    let tonalSuffix := jsOrS (getA SUFFIX_MAP baseSuffix) baseSuffix
    let baseSymbol := if tonalSuffix ≠ "" then key ++ tonalSuffix else key
    baseSymbol ++ "/" ++ bass
  else
    let tonalSuffix := jsOrS (getA SUFFIX_MAP suffix) suffix
    if tonalSuffix ≠ "" then key ++ tonalSuffix else key

/-- parser.ts lines 143-161: ordered substring rules mapping a suffix code to
its quality tag. -/
def determineQuality (suffix : String) : String :=
  if includes suffix "maj7" then "major-seventh"
  else if includes suffix "m7" then "minor-seventh"
  else if includes suffix "dim7" then "diminished-seventh"
  else if includes suffix "aug7" then "augmented-seventh"
  else if includes suffix "m9" then "minor-ninth"
  else if includes suffix "maj9" then "major-ninth"
  else if includes suffix "9" && !(includes suffix "maj") then "dominant-ninth"
  else if includes suffix "dim" then "diminished"
  else if includes suffix "aug" then "augmented"
  else if includes suffix "sus" then "suspended"
  else if includes suffix "m" then "minor"
  else if suffix == "5" then "power"
  else if suffix == "6" then "sixth"
  else if suffix == "69" then "six-nine"
  else "major"

/-- The spec's rule table for the Quality Classifier (spec section 4.3),
written as an explicit ordered list of (predicate, tag) rules. -/
def qualityRules : List ((String → Bool) × String) := [
  (fun s => includes s "maj7", "major-seventh"),
  (fun s => includes s "m7", "minor-seventh"),
  (fun s => includes s "dim7", "diminished-seventh"),
  (fun s => includes s "aug7", "augmented-seventh"),
  (fun s => includes s "m9", "minor-ninth"),
  (fun s => includes s "maj9", "major-ninth"),
  (fun s => includes s "9" && !(includes s "maj"), "dominant-ninth"),
  (fun s => includes s "dim", "diminished"),
  (fun s => includes s "aug", "augmented"),
  (fun s => includes s "sus", "suspended"),
  (fun s => includes s "m", "minor"),
  (fun s => s == "5", "power"),
  (fun s => s == "6", "sixth"),
  (fun s => s == "69", "six-nine")]

/-- First-matching-rule evaluation with a default tag (spec section 4.3). -/
def firstMatch : List ((String → Bool) × String) → String → String → String
  | [], dflt, _ => dflt
  | r :: rs, dflt, s => if r.1 s then r.2 else firstMatch rs dflt s

/-- Modelled from the spec's words: Quality Classifier as a first-match rule
table over the fixed priority order, defaulting to "major". -/
def specQuality (s : String) : String := firstMatch qualityRules "major" s

/-- parser.ts lines 339-353: common progressions by suffix. -/
def findCommonProgressions (suffix : String) : List String :=
  if suffix == "major" then ["I-IV-V", "I-V-vi-IV", "ii-V-I"]
  else if suffix == "minor" then ["i-iv-v", "i-VI-III-VII", "ii°-V-i"]
  else if includes suffix "7" then ["I7-IV7-V7", "ii7-V7-I7"]
  else if includes suffix "m7" then ["i7-iv7-v7", "ii7b5-V7-i7"]
  else []

/-- types.ts BarreInfo: string numbers (6 = low E .. 1 = high E) and fret. -/
structure BarreInfo where
  fromString : Int
  toString : Int
  fret : Int
deriving Repr, DecidableEq

/-- types.ts RawPosition.  midi numbers are nonnegative; frets use -1 for a
muted string and 0 for an open one; capo false models both `false` and an
absent (undefined, falsy) field. -/
structure RawPosition where
  frets : List Int
  fingers : List Int
  baseFret : Int
  barres : Option (List Int)
  capo : Bool
  midi : List Nat
deriving Repr, DecidableEq

/-- types.ts RawChord. -/
structure RawChord where
  key : String
  suffix : String
  positions : List RawPosition
deriving Repr, DecidableEq

/-- types.ts ChordDatabase: raw key → chords, in object-entry order. -/
structure ChordDatabase where
  chords : List (String × List RawChord)

/-- The object returned by tonal's `Chord.get`, restricted to the fields the
parser reads.  An empty tonic models a null tonic. -/
structure ChordInfo where
  tonic : String
  notes : List String
  aliases : List String
  name : String
  symbol : String
  intervals : List String
  empty : Bool
deriving Repr, DecidableEq

/-- The external music-theory service (tonal) as consumed by the parser:
`Chord.get`, `Note.fromMidi` ("" = unresolved), `Note.get(x).pc`, and
`Interval.distance` ("" = unresolved). -/
structure TheoryService where
  chordGet : String → ChordInfo
  fromMidi : Nat → String
  notePc : String → String
  intervalDistance : String → String → String

/-- types.ts GuitarFingering. -/
structure GuitarFingering where
  id : String
  name : String
  frets : List Int
  fingers : List Int
  baseFret : Int
  mutedStrings : List Int
  barre : Option BarreInfo
  capo : Bool
  midi : List Nat
  notes : List String
  intervals : List String
  difficulty : ℚ
deriving Repr, DecidableEq

/-- types.ts GuitarChord (the tonal base fields plus the guitar-specific ones). -/
structure GuitarChord where
  id : String
  symbol : String
  name : String
  tonic : String
  aliases : List String
  intervals : List String
  notes : List String
  quality : String
  fingerings : List GuitarFingering
  difficulty : ℚ
  commonProgressions : List String
  tags : List String
  genreTags : List String
deriving Repr, DecidableEq

/-- parser.ts lines 204-224: first barre fret only; the barre spans from the
lowest to the highest string number whose fret equals that barre fret. -/
def parseBarre (position : RawPosition) : Option BarreInfo :=
  match position.barres with
  | none => none
  | some barres =>
    if barres.length = 0 then none
    else
      let barreFret := barres.headD 0
      let barreStrings :=
        (position.frets.enum.filter (fun p => p.2 == barreFret)).map
          (fun p => 6 - (p.1 : Int))
      match barreStrings with
      | [] => none
      | s :: ss =>
        some { fromString := ss.foldl max s, toString := ss.foldl min s,
               fret := barreFret }

/-- JavaScript `note.replace(/[0-9]/g, "")`. -/
def stripDigits (s : String) : String :=
  (s.toList.filter (fun c => !c.isDigit)).asString

/-- JavaScript array read `l[i]` with an Int index: negative or out-of-range
indices give undefined (none). -/
def jsIndex (l : List String) (i : Int) : Option String :=
  if i < 0 then none else l[i.toNat]?

/-- parser.ts lines 288-292: English ordinal suffix.  JavaScript % is
truncated remainder (sign of the dividend), Int.tmod. -/
def getOrdinal (n : Int) : String :=
  let suffixes := ["th", "st", "nd", "rd"]
  let value := n.tmod 100
  toString n ++
    (((jsIndex suffixes ((value - 20).tmod 10)).orElse
        (fun _ => jsIndex suffixes value)).getD "th")

/-- parser.ts lines 266-286: human label for a fingering. -/
def generateFingeringName (position : RawPosition) (barre : Option BarreInfo) :
    String :=
  let isOpenPosition := position.baseFret == 1 && position.frets.any (· == 0)
  let hasOpenStrings := position.frets.contains 0
  if isOpenPosition then "Open Position"
  else
    match barre with
    | some b =>
      if hasOpenStrings then "Open - " ++ getOrdinal b.fret ++ " fret"
      else "Barre - " ++ getOrdinal b.fret ++ " fret"
    | none =>
      if hasOpenStrings then "Open - " ++ getOrdinal position.baseFret ++ " fret"
      else getOrdinal position.baseFret ++ " fret"

/-- parser.ts lines 226-229: interval from the root pitch class to each note,
dropping empty (unresolved) results. -/
def calculateIntervals (svc : TheoryService) (notes : List String)
    (rootNote : String) : List String :=
  let rootPitch := svc.notePc rootNote
  (notes.map (fun note => svc.intervalDistance rootPitch note)).filter
    (fun i => i != "")

/-- parser.ts line 236: Factor 1, barre bonus (+1.5, and +0.5 above fret 5). -/
def barreBonus : Option BarreInfo → ℚ
  | none => 0
  | some b => 3/2 + (if 5 < b.fret then 1/2 else 0)

/-- parser.ts lines 241-242: Factor 2, base-fret bonus. -/
def baseFretBonus (baseFret : Int) : ℚ :=
  if 7 < baseFret then 1 else if 3 < baseFret then 1/2 else 0

/-- parser.ts lines 245-252: Factor 3, stretch bonus over the frets > 0. -/
def stretchBonus (frets : List Int) : ℚ :=
  match frets.filter (fun f => 0 < f) with
  | [] => 0
  | f :: fs =>
    let stretch := fs.foldl max f - fs.foldl min f
    if 4 < stretch then 1 else if 2 < stretch then 1/2 else 0

/-- parser.ts line 257: clamp to [1, 5] after rounding to the nearest 0.5
(`Math.round(d * 2) / 2`; Math.round is round-half-up, Mathlib round). -/
def clampScore (d : ℚ) : ℚ := min 5 (max 1 ((round (d * 2) : ℚ) / 2))

/-- parser.ts lines 231-258: per-fingering difficulty.  The sequential
`difficulty +=` statements are summed; Factor 4 (capo) floors at 1 before
the final clamp. -/
def calculateFingeringDifficulty (position : RawPosition)
    (barre : Option BarreInfo) : ℚ :=
  let afterStretch :=
    1 + barreBonus barre + baseFretBonus position.baseFret
      + stretchBonus position.frets
  let afterCapo :=
    if position.capo then max 1 (afterStretch - 1/2) else afterStretch
  clampScore afterCapo

/-- parser.ts lines 260-264: aggregate difficulty, 3 when no fingerings,
otherwise the mean rounded to one decimal place. -/
def calculateChordDifficulty (fingerings : List GuitarFingering) : ℚ :=
  if fingerings.length = 0 then 3
  else
    let avg :=
      fingerings.foldl (fun sum f => sum + f.difficulty) 0
        / (fingerings.length : ℚ)
    (round (avg * 10) : ℚ) / 10

/-- parser.ts lines 163-202: analyze one raw position into a fingering.
rootNote is `chordInfo.notes[0]` at the call site (an undefined entry is
passed through to Note.get, which yields an empty pitch class; the embedding
uses "" for that undefined value). -/
def parseFingering (svc : TheoryService) (position : RawPosition)
    (suffix rootNote : String) : GuitarFingering :=
  let mutedStrings :=
    ((position.frets.enum.map
        (fun p => if p.2 == -1 then (p.1 : Int) else -1)).filter
      (fun idx => idx != -1)).map (fun idx => 6 - idx)
  let barre := parseBarre position
  let notes :=
    (position.midi.map (fun m =>
        let note := svc.fromMidi m
        if note ≠ "" then stripDigits note else "")).filter (fun n => n != "")
  let name := generateFingeringName position barre
  let intervals := calculateIntervals svc notes rootNote
  let difficulty := calculateFingeringDifficulty position barre
  { id := rootNote ++ "-" ++ suffix ++ "-" ++ toString position.baseFret,
    name := name, frets := position.frets, fingers := position.fingers,
    baseFret := position.baseFret, mutedStrings := mutedStrings,
    barre := barre, capo := position.capo, midi := position.midi,
    notes := notes, intervals := intervals, difficulty := difficulty }

/-- Expand every occurrence of one character into a replacement string:
JavaScript `s.replace(/c/g, rep)` for a single-character pattern. -/
def replaceChar (target : Char) (rep : String) (s : String) : String :=
  String.join (s.toList.map
    (fun c => if c == target then rep else String.singleton c))

/-- parser.ts lines 355-360: canonical chord id. -/
def generateChordId (key suffix : String) : String :=
  replaceChar '/' "-over-"
    (replaceChar 'b' "flat"
      (replaceChar '#' "sharp" (key.toLower ++ "-" ++ suffix.toLower)))

/-- JavaScript `[...new Set(l)]`: deduplicate keeping first occurrences. -/
def jsSetDedup (l : List String) : List String :=
  l.foldl (fun acc x => if acc.contains x then acc else acc ++ [x]) []

/-- parser.ts lines 294-315: descriptive tags. -/
def generateTags (suffix : String) (fingerings : List GuitarFingering) :
    List String :=
  let tags :=
    (if includes suffix "maj" then ["major-type"] else [])
    ++ (if includes suffix "m7" then ["minor-7th"] else [])
    ++ (if includes suffix "9" then ["extended"] else [])
    ++ (if includes suffix "sus" then ["suspended"] else [])
    ++ (if includes suffix "dim" then ["diminished"] else [])
    ++ (if includes suffix "aug" then ["augmented"] else [])
    ++ (if includes suffix "add" then ["added-tone"] else [])
    ++ (if suffix == "5" then ["power-chord"] else [])
    ++ (if fingerings.any (fun f => f.barre.isSome) then ["barre"] else [])
    ++ (if fingerings.any (fun f => f.frets.any (fun fret => fret == 0))
        then ["open-chord"] else [])
    ++ (if fingerings.any (fun f => f.capo) then ["capo"] else [])
    ++ (let avgDiff := calculateChordDifficulty fingerings
        (if avgDiff ≤ 2 then ["beginner"] else [])
        ++ (if 4 ≤ avgDiff then ["advanced"] else []))
  jsSetDedup tags

/-- parser.ts lines 317-337: genre tags. -/
def generateGenreTags (suffix : String) : List String :=
  let tags :=
    (if includes suffix "7" || includes suffix "9"
     then ["blues", "jazz", "funk"] else [])
    ++ (if includes suffix "sus" then ["pop", "rock", "folk"] else [])
    ++ (if includes suffix "maj7" || includes suffix "m9"
        then ["jazz", "bossa-nova", "r&b"] else [])
    ++ (if suffix == "5" then ["rock", "metal", "punk"] else [])
    ++ (if suffix == "major" || suffix == "minor"
        then ["all-genres", "essential"] else [])
  jsSetDedup tags

/-- parser.ts lines 97-129: build one GuitarChord.  The commented-out
`chordInfo.empty` check means an unresolvable symbol does NOT abort or skip:
the record is still assembled, with `chordInfo.notes[0]` undefined (embedded
as headD "") and the tonic falling back to the key (`chordInfo.tonic || key`).
The body is total: nothing in it can throw on well-typed input. -/
def parseChord (svc : TheoryService) (key : String) (rawChord : RawChord) :
    GuitarChord :=
  let suffix := rawChord.suffix
  let positions := rawChord.positions
  let symbol := buildChordSymbol key suffix
  let chordInfo := svc.chordGet symbol
  let chordId := generateChordId key suffix
  let quality := determineQuality suffix
  let fingerings :=
    positions.map (fun pos => parseFingering svc pos suffix
      (chordInfo.notes.headD ""))
  let difficulty := calculateChordDifficulty fingerings
  let tags := generateTags suffix fingerings
  let genreTags := generateGenreTags suffix
  let commonProgressions := findCommonProgressions suffix
  { id := chordId, symbol := chordInfo.symbol, name := chordInfo.name,
    tonic := jsOr chordInfo.tonic key, aliases := chordInfo.aliases,
    intervals := chordInfo.intervals, notes := chordInfo.notes,
    quality := quality, fingerings := fingerings, difficulty := difficulty,
    commonProgressions := commonProgressions, tags := tags,
    genreTags := genreTags }

/-- parser.ts line 85: the console warning identifying key and suffix (the
caught error object is printed alongside and not modelled). -/
def warnMsg (key suffix : String) : String :=
  "Failed to parse " ++ key ++ " " ++ suffix ++ ":"

/-- parser.ts lines 77-87, one iteration of the inner loop: run the per-chord
parse step; on success insert under `suffix || "major"`, on a null result do
nothing, and on a thrown error append the warning and keep going.  The parse
step is abstracted as an Except-valued function so that the catch behaviour
can be stated for any way the step might throw. -/
def processChord (p : String → RawChord → Except String (Option GuitarChord))
    (key : String) (st : List (String × GuitarChord) × List String)
    (rawChord : RawChord) : List (String × GuitarChord) × List String :=
  match p key rawChord with
  | .ok (some parsedChord) =>
    (setA st.1 (jsOr rawChord.suffix "major") parsedChord, st.2)
  | .ok none => st
  | .error _ => (st.1, st.2 ++ [warnMsg key rawChord.suffix])

/-- parser.ts lines 77-87: the inner for-loop over one key's chord list. -/
def processChords (p : String → RawChord → Except String (Option GuitarChord))
    (key : String) (st : List (String × GuitarChord) × List String) :
    List RawChord → List (String × GuitarChord) × List String
  | [] => st
  | rawChord :: rest => processChords p key (processChord p key st rawChord) rest

/-- parser.ts lines 66-91: the full pass, parameterized by the per-chord
parse step.  Returns the output catalog and the warning log. -/
def parseAllChordsWith
    (p : String → RawChord → Except String (Option GuitarChord))
    (db : ChordDatabase) :
    List (String × List (String × GuitarChord)) × List String :=
  db.chords.foldl (fun acc kv =>
    let normalizedKey := normalizeKey kv.1
    let inner := (getA acc.1 normalizedKey).getD []
    let st := processChords p normalizedKey (inner, acc.2) kv.2
    (setA acc.1 normalizedKey st.1, st.2)) ([], [])

/-- parser.ts lines 66-91 with the real per-chord step: parseChord is total
and never returns null (the null path is commented out in the source), so
the step always succeeds. -/
def parseAllChords (svc : TheoryService) (db : ChordDatabase) :
    List (String × List (String × GuitarChord)) :=
  (parseAllChordsWith (fun key rc => .ok (some (parseChord svc key rc))) db).1

/-- The nine admissible per-fingering difficulty values (spec section 8). -/
def difficultySteps : List ℚ := [1, 3/2, 2, 5/2, 3, 7/2, 4, 9/2, 5]

/-- Modelled from the spec's words (section 4.5): aggregate chord difficulty
as the arithmetic mean of the fingering difficulties, rounded to one decimal
place, and 3 for zero fingerings. -/
def specAggregateDifficulty (fingerings : List GuitarFingering) : ℚ :=
  if fingerings = [] then 3
  else
    (round (((fingerings.map (fun f => f.difficulty)).sum
        / (fingerings.length : ℚ)) * 10) : ℚ) / 10

/-- A ChordInfo standing for tonal's empty result (`Chord.get` on a symbol it
cannot interpret: empty flag set, no tonic, no notes). -/
def infoEmpty : ChordInfo :=
  { tonic := "", notes := [], aliases := [], name := "", symbol := "",
    intervals := [], empty := true }

/-- A service on which every symbol is uninterpretable and every lookup
unresolved. -/
def svcEmpty : TheoryService :=
  { chordGet := fun _ => infoEmpty, fromMidi := fun _ => "",
    notePc := fun _ => "", intervalDistance := fun _ _ => "" }

/-- A service that resolves every note but no interval: `Note.fromMidi`
always yields "C4" and `Interval.distance` always yields "" (its unresolved
result, e.g. when the root pitch class is empty). -/
def svcNoIntervals : TheoryService :=
  { chordGet := fun _ => infoEmpty, fromMidi := fun _ => "C4",
    notePc := fun _ => "", intervalDistance := fun _ _ => "" }

/-- A service on which every lookup resolves: intervals all come back "1P". -/
def svcAll : TheoryService :=
  { chordGet := fun _ => infoEmpty, fromMidi := fun _ => "C4",
    notePc := fun s => s, intervalDistance := fun _ _ => "1P" }

/-- A one-note open position used as a concrete fingering input. -/
def pos0 : RawPosition :=
  { frets := [0, 0, 0, 0, 0, 0], fingers := [0, 0, 0, 0, 0, 0],
    baseFret := 1, barres := none, capo := false, midi := [60] }

/-- The single-key single-chord database of the end-to-end test: key "Csharp",
one chord with empty suffix and no positions. -/
def dbCsharp : ChordDatabase :=
  ⟨[("Csharp", [{ key := "Csharp", suffix := "", positions := [] }])]⟩

/-- A database with one chord whose symbol the service cannot interpret. -/
def dbOne : ChordDatabase :=
  ⟨[("C", [{ key := "C", suffix := "maj7", positions := [] }])]⟩

/-- A raw chord recognised by the failing parse step below. -/
def chordBad : RawChord := { key := "C", suffix := "bad", positions := [] }

/-- A per-chord parse step that throws exactly on suffix "bad". -/
def pBad : String → RawChord → Except String (Option GuitarChord) :=
  fun _ rc => if rc.suffix = "bad" then .error "boom" else .ok none

/-- A concrete analyzed fingering (difficulty produced by the scorer). -/
def fing0 : GuitarFingering := parseFingering svcAll pos0 "" "C"

theorem startsWithL_iff (p l : List Char) :
    startsWithL p l = true ↔ ∃ t, p ++ t = l := by
  induction p generalizing l with
  | nil => simp [startsWithL]
  | cons a ps ih =>
    cases l with
    | nil => simp [startsWithL]
    | cons c cs =>
      simp only [startsWithL, Bool.and_eq_true, beq_iff_eq, ih]
      constructor
      · rintro ⟨rfl, t, rfl⟩
        exact ⟨t, rfl⟩
      · rintro ⟨t, h⟩
        injection h with h1 h2
        exact ⟨h1, t, h2⟩

theorem containsL_iff (p l : List Char) :
    containsL p l = true ↔ ∃ s t, s ++ p ++ t = l := by
  induction l with
  | nil => cases p <;> simp [containsL]
  | cons c cs ih =>
    simp only [containsL, Bool.or_eq_true, startsWithL_iff, ih]
    constructor
    · rintro (⟨t, h⟩ | ⟨s, t, rfl⟩)
      · exact ⟨[], t, by simpa using h⟩
      · exact ⟨c :: s, t, rfl⟩
    · rintro ⟨s, t, h⟩
      cases s with
      | nil =>
        left
        exact ⟨t, by simpa using h⟩
      | cons a as =>
        right
        injection h with h1 h2
        subst h1
        exact ⟨as, t, h2⟩

/-- Occurrence of a pattern implies occurrence of the pattern without its
head character. -/
theorem containsL_drop_head (s : String) (a : Char) (p : List Char)
    (h : containsL (a :: p) s.toList = true) : containsL p s.toList = true := by
  obtain ⟨u, v, huv⟩ := (containsL_iff _ _).1 h
  exact (containsL_iff _ _).2
    ⟨u ++ [a], v, by simpa [List.append_assoc] using huv⟩

/-- A suffix containing "m7" contains "7". -/
theorem includes_m7_7 (s : String) (h : includes s "m7" = true) :
    includes s "7" = true :=
  containsL_drop_head s 'm' ['7'] h

theorem min_max_half_mem (k : ℤ) :
    min 5 (max 1 ((k : ℚ) / 2)) ∈ difficultySteps := by
  rcases le_or_lt k 2 with h | h
  · have hk : ((k : ℚ) / 2) ≤ 1 := by
      have h2 : (k : ℚ) ≤ 2 := by exact_mod_cast h
      linarith
    rw [max_eq_left hk]
    norm_num [difficultySteps]
  · rcases le_or_lt 10 k with h' | h'
    · have h10 : (10 : ℚ) ≤ (k : ℚ) := by exact_mod_cast h'
      have hk1 : (1 : ℚ) ≤ (k : ℚ) / 2 := by linarith
      have hk5 : (5 : ℚ) ≤ (k : ℚ) / 2 := by linarith
      rw [max_eq_right hk1, min_eq_left hk5]
      norm_num [difficultySteps]
    · interval_cases k <;> push_cast <;>
        norm_num [difficultySteps, min_def, max_def]

theorem clampScore_mem (d : ℚ) : clampScore d ∈ difficultySteps :=
  min_max_half_mem (round (d * 2))

/-- The per-fingering score is always one of the nine half steps. -/
theorem calcDiff_mem (pos : RawPosition) (barre : Option BarreInfo) :
    calculateFingeringDifficulty pos barre ∈ difficultySteps :=
  clampScore_mem _

theorem round_mono_q {a b : ℚ} (h : a ≤ b) : round a ≤ round b := by
  rw [round_eq, round_eq]
  exact Int.floor_le_floor (by linarith)

theorem clampScore_mono {a b : ℚ} (h : a ≤ b) :
    clampScore a ≤ clampScore b := by
  unfold clampScore
  have h2 : round (a * 2) ≤ round (b * 2) := round_mono_q (by linarith)
  have h3 : ((round (a * 2) : ℤ) : ℚ) ≤ ((round (b * 2) : ℤ) : ℚ) := by
    exact_mod_cast h2
  exact min_le_min le_rfl (max_le_max le_rfl (by linarith))

theorem barreBonus_nonneg (b : Option BarreInfo) : 0 ≤ barreBonus b := by
  cases b with
  | none => simp [barreBonus]
  | some b =>
    simp only [barreBonus]
    split <;> norm_num

theorem calculateIntervals_length_le (svc : TheoryService)
    (notes : List String) (root : String) :
    (calculateIntervals svc notes root).length ≤ notes.length := by
  unfold calculateIntervals
  exact le_trans (List.length_filter_le _ _) (le_of_eq (List.length_map _ _))

theorem calculateIntervals_all (svc : TheoryService) (notes : List String)
    (root : String)
    (h : ∀ n ∈ notes, svc.intervalDistance (svc.notePc root) n ≠ "") :
    calculateIntervals svc notes root
      = notes.map (fun n => svc.intervalDistance (svc.notePc root) n) := by
  unfold calculateIntervals
  apply List.filter_eq_self.mpr
  intro a ha
  rcases List.mem_map.1 ha with ⟨n, hn, rfl⟩
  simpa [bne_iff_ne] using h n hn

theorem foldl_add_difficulty (fs : List GuitarFingering) (init : ℚ) :
    fs.foldl (fun sum f => sum + f.difficulty) init
      = init + (fs.map (fun f => f.difficulty)).sum := by
  induction fs generalizing init with
  | nil => simp
  | cons f t ih => simp [ih, add_assoc]

theorem round_tenth_eq (d : ℚ) (k : ℤ) (h : d * 10 = (k : ℚ)) :
    (round (d * 10) : ℚ) / 10 = d := by
  rw [h, round_intCast, ← h, mul_div_assoc]
  norm_num

theorem round_tenth_step (d : ℚ) (hd : d ∈ difficultySteps) :
    (round (d * 10) : ℚ) / 10 = d := by
  simp only [difficultySteps] at hd
  fin_cases hd
  · exact round_tenth_eq 1 10 (by norm_num)
  · exact round_tenth_eq (3/2) 15 (by norm_num)
  · exact round_tenth_eq 2 20 (by norm_num)
  · exact round_tenth_eq (5/2) 25 (by norm_num)
  · exact round_tenth_eq 3 30 (by norm_num)
  · exact round_tenth_eq (7/2) 35 (by norm_num)
  · exact round_tenth_eq 4 40 (by norm_num)
  · exact round_tenth_eq (9/2) 45 (by norm_num)
  · exact round_tenth_eq 5 50 (by norm_num)

/-- Claim C1, counterexample: "major" is a suffix code whose table fragment
is the empty string, yet building its slash-free symbol from key "C" yields
"Cmajor", not the bare key "C": the JavaScript `SUFFIX_MAP[suffix] || suffix`
treats the empty fragment as falsy and falls back to the raw code. -/
theorem buildSymbol_major_cex :
    getA SUFFIX_MAP "major" = some ""
    ∧ buildChordSymbol "C" "major" = "Cmajor"
    ∧ buildChordSymbol "C" "major" ≠ "C" :=
  ⟨rfl, rfl, by decide⟩

/-- Claim C1, amended: every suffix code in the lookup table, built from key
"C" with slash bass "G", yields a symbol containing "/G"; a code whose table
fragment is the empty string yields the key concatenated with the raw code
(so "major" gives "Cmajor", not the bare key); the bare key alone arises for
the empty suffix. -/
theorem buildSymbol_slash_and_empty :
    (SUFFIX_MAP.all
        (fun kv => includes (buildChordSymbol "C" (kv.1 ++ "/G")) "/G") = true)
    ∧ (SUFFIX_MAP.all
        (fun kv =>
          kv.2 != "" || (buildChordSymbol "C" kv.1 == "C" ++ kv.1)) = true)
    ∧ buildChordSymbol "C" "" = "C" :=
  ⟨by decide, by decide, rfl⟩

theorem processChords_fst_warns
    (p : String → RawChord → Except String (Option GuitarChord)) (key : String) :
    ∀ (l : List RawChord) (m : List (String × GuitarChord)) (w w' : List String),
      (processChords p key (m, w) l).1 = (processChords p key (m, w') l).1 := by
  intro l
  induction l with
  | nil => intro m w w'; rfl
  | cons c t ih =>
    intro m w w'
    simp only [processChords, processChord]
    cases hp : p key c with
    | ok oc =>
      cases oc with
      | some ch => exact ih _ _ _
      | none => exact ih _ _ _
    | error e => exact ih _ _ _

theorem processChords_warns_mono
    (p : String → RawChord → Except String (Option GuitarChord)) (key : String)
    (msg : String) :
    ∀ (l : List RawChord) (st : List (String × GuitarChord) × List String),
      msg ∈ st.2 → msg ∈ (processChords p key st l).2 := by
  intro l
  induction l with
  | nil => intro st h; exact h
  | cons c t ih =>
    intro st h
    apply ih
    simp only [processChord]
    cases hp : p key c with
    | ok oc =>
      cases oc with
      | some ch => exact h
      | none => exact h
    | error e => exact List.mem_append_left _ h

/-- Claim C2, amended: when the per-chord parse step throws on one chord,
the catch in the assembler recovers locally — the output map is exactly the
map the pass over the remaining chords produces (the failing chord
contributes no record, the rest of the pass continues), and the warning log
contains the message naming the normalized key and the suffix.  (An
uninterpretable symbol, by contrast, does not throw and is not skipped: see
the counterexample.) -/
theorem parse_failure_skips_and_warns
    (p : String → RawChord → Except String (Option GuitarChord)) (key : String)
    (m : List (String × GuitarChord)) (w : List String)
    (pre post : List RawChord) (c : RawChord) (e : String)
    (h : p key c = .error e) :
    (processChords p key (m, w) (pre ++ c :: post)).1
      = (processChords p key (m, w) (pre ++ post)).1
    ∧ warnMsg key c.suffix ∈ (processChords p key (m, w) (pre ++ c :: post)).2 := by
  induction pre generalizing m w with
  | nil =>
    constructor
    · simp only [List.nil_append, processChords, processChord, h]
      exact processChords_fst_warns p key post m (w ++ [warnMsg key c.suffix]) w
    · simp only [List.nil_append, processChords, processChord, h]
      exact processChords_warns_mono p key _ post _ (by simp)
  | cons a pre ih =>
    simp only [List.cons_append, processChords]
    exact ih (processChord p key (m, w) a).1 (processChord p key (m, w) a).2

/-- Witness for the amended C2 at a concrete failing step. -/
theorem parse_failure_witness :
    pBad "C" chordBad = .error "boom"
    ∧ (processChords pBad "C" ([], []) ([] ++ chordBad :: [])).1
        = (processChords pBad "C" ([], []) ([] ++ [])).1
    ∧ warnMsg "C" chordBad.suffix
        ∈ (processChords pBad "C" ([], []) ([] ++ chordBad :: [])).2 :=
  ⟨rfl,
    (parse_failure_skips_and_warns pBad "C" [] [] [] [] chordBad "boom" rfl).1,
    (parse_failure_skips_and_warns pBad "C" [] [] [] [] chordBad "boom" rfl).2⟩

/-- Claim C2, counterexample: the `chordInfo.empty` check is commented out in
parseChord, so a chord whose built symbol the service cannot interpret
(resolution returns the empty result) is NOT skipped: a record for it still
appears in the output catalog. -/
theorem empty_resolution_not_skipped :
    (svcEmpty.chordGet (buildChordSymbol "C" "maj7")).empty = true
    ∧ (getA ((getA (parseAllChords svcEmpty dbOne) "C").getD []) "maj7").isSome
        = true :=
  ⟨rfl, rfl⟩

/-- Claim C3, counterexample: with a service whose interval lookup is
unresolved (empty result), the analyzed fingering has one note but zero
intervals — `intervals` is NOT the same length as `notes`. -/
theorem intervals_shorter_cex :
    (parseFingering svcNoIntervals pos0 "" "C").notes.length = 1
    ∧ (parseFingering svcNoIntervals pos0 "" "C").intervals.length = 0 :=
  ⟨rfl, rfl⟩

/-- Claim C3, amended: `intervals` never exceeds `notes` in length, and
whenever every interval lookup from the root resolves (is non-empty),
`intervals` is exactly the order-parallel image of `notes`: same length, with
the i-th interval computed from the root and the i-th note. -/
theorem intervals_parallel_when_resolved (svc : TheoryService)
    (pos : RawPosition) (suffix root : String) :
    (parseFingering svc pos suffix root).intervals.length
      ≤ (parseFingering svc pos suffix root).notes.length
    ∧ ((∀ n ∈ (parseFingering svc pos suffix root).notes,
          svc.intervalDistance (svc.notePc root) n ≠ "") →
        (parseFingering svc pos suffix root).intervals
          = (parseFingering svc pos suffix root).notes.map
              (fun n => svc.intervalDistance (svc.notePc root) n)) :=
  ⟨calculateIntervals_length_le svc _ root,
    fun h => calculateIntervals_all svc _ root h⟩

/-- Witness for the amended C3 on a service that resolves every interval. -/
theorem intervals_parallel_witness :
    (∀ n ∈ (parseFingering svcAll pos0 "" "C").notes,
        svcAll.intervalDistance (svcAll.notePc "C") n ≠ "")
    ∧ (parseFingering svcAll pos0 "" "C").intervals
        = (parseFingering svcAll pos0 "" "C").notes.map
            (fun n => svcAll.intervalDistance (svcAll.notePc "C") n) :=
  ⟨by decide, (intervals_parallel_when_resolved svcAll pos0 "" "C").2 (by decide)⟩

/-- Claim C4: the Quality Classifier agrees with the spec's first-match rule
table (same fixed priority order, default "major") on every suffix code, and
the pinned examples hold: "maj7" is major-seventh and "m7b5" is
minor-seventh, never plain minor. -/
theorem quality_first_match :
    (∀ s : String, determineQuality s = specQuality s)
    ∧ determineQuality "maj7" = "major-seventh"
    ∧ determineQuality "m7b5" = "minor-seventh"
    ∧ determineQuality "m7b5" ≠ "minor" :=
  ⟨fun _ => rfl, by decide, by decide, by decide⟩

/-- Claim C5: every per-fingering difficulty the scorer returns lies in
{1, 1.5, 2, 2.5, 3, 3.5, 4, 4.5, 5}. -/
theorem difficulty_in_steps (pos : RawPosition) (barre : Option BarreInfo) :
    calculateFingeringDifficulty pos barre ∈ difficultySteps :=
  calcDiff_mem pos barre

/-- Claim C6: the scorer is monotone in barre presence — for the identical
position, the score with a detected barre is at least the score without. -/
theorem capoStep_mono {x y : ℚ} (c : Bool) (h : x ≤ y) :
    (if c = true then max 1 (x - 1/2) else x)
      ≤ (if c = true then max 1 (y - 1/2) else y) := by
  cases c
  · simpa using h
  · simpa using max_le_max (le_refl (1 : ℚ)) (by linarith : x - 1/2 ≤ y - 1/2)

theorem barre_never_lowers (pos : RawPosition) (b : BarreInfo) :
    calculateFingeringDifficulty pos none
      ≤ calculateFingeringDifficulty pos (some b) := by
  have hx : (0 : ℚ) ≤ (if 5 < b.fret then (1 : ℚ)/2 else 0) := by
    split <;> norm_num
  have key : 1 + barreBonus none + baseFretBonus pos.baseFret
        + stretchBonus pos.frets
      ≤ 1 + barreBonus (some b) + baseFretBonus pos.baseFret
        + stretchBonus pos.frets := by
    simp only [barreBonus]
    linarith
  exact clampScore_mono (capoStep_mono pos.capo key)

/-- Claim C7: the aggregate chord difficulty equals the spec-side definition
(arithmetic mean rounded to one decimal place) on every fingering list, is
exactly 3 on the empty list, and on a single fingering whose difficulty came
from the Difficulty Scorer it equals that fingering's score. -/
theorem aggregate_difficulty_spec :
    (∀ fs : List GuitarFingering,
        calculateChordDifficulty fs = specAggregateDifficulty fs)
    ∧ calculateChordDifficulty [] = 3
    ∧ (∀ (f : GuitarFingering) (pos : RawPosition) (b : Option BarreInfo),
        f.difficulty = calculateFingeringDifficulty pos b →
        calculateChordDifficulty [f] = f.difficulty) := by
  refine ⟨?_, rfl, ?_⟩
  · intro fs
    cases fs with
    | nil => rfl
    | cons f t =>
      simp [calculateChordDifficulty, specAggregateDifficulty,
        foldl_add_difficulty]
  · intro f pos b h
    have hmem : f.difficulty ∈ difficultySteps := by
      rw [h]
      exact calcDiff_mem pos b
    have h1 : calculateChordDifficulty [f]
        = (round (f.difficulty * 10) : ℚ) / 10 := by
      simp [calculateChordDifficulty]
    rw [h1, round_tenth_step f.difficulty hmem]

/-- Witness for C7 at a concrete scorer-produced fingering. -/
theorem aggregate_difficulty_witness :
    fing0.difficulty = calculateFingeringDifficulty pos0 (parseBarre pos0)
    ∧ calculateChordDifficulty [fing0] = fing0.difficulty
    ∧ calculateChordDifficulty [] = 3 :=
  ⟨rfl,
    aggregate_difficulty_spec.2.2 fing0 pos0 (parseBarre pos0) rfl,
    aggregate_difficulty_spec.2.1⟩

/-- Claim C8: on the database with single raw key "Csharp" holding one chord
with empty suffix and no positions, the assembler emits (totally — the
embedded pipeline cannot throw) a record under normalized key "C#" and
suffix key "major" whose difficulty is exactly 3 and whose fingering list is
empty, whatever the music-theory service answers. -/
theorem csharp_end_to_end (svc : TheoryService) :
    ∃ rec : GuitarChord,
      getA ((getA (parseAllChords svc dbCsharp) "C#").getD []) "major" = some rec
      ∧ rec.difficulty = 3 ∧ rec.fingerings = [] :=
  ⟨parseChord svc "C#" { key := "Csharp", suffix := "", positions := [] },
    rfl, rfl, rfl⟩

/-- Claim C9: for every fingering the Analyzer produces, `intervals` is at
most as long as `notes`: each interval is computed from one derived note and
the filtering of empty results can only remove entries. -/
theorem intervals_le_notes (svc : TheoryService) (pos : RawPosition)
    (suffix root : String) :
    (parseFingering svc pos suffix root).intervals.length
      ≤ (parseFingering svc pos suffix root).notes.length :=
  calculateIntervals_length_le svc _ root

/-- Claim C10: every suffix containing "m7" also contains "7", so the "7"
rule fires first and findCommonProgressions returns the dominant-seventh
lists; the minor-seventh list is unreachable — never returned for any
suffix. -/
theorem m7_progressions_unreachable :
    (∀ s : String, includes s "m7" = true →
        findCommonProgressions s = ["I7-IV7-V7", "ii7-V7-I7"])
    ∧ (∀ s : String,
        findCommonProgressions s ≠ ["i7-iv7-v7", "ii7b5-V7-i7"]) := by
  constructor
  · intro s h
    have h7 : includes s "7" = true := includes_m7_7 s h
    have hmaj : (s == "major") = false := by
      apply beq_eq_false_iff_ne.mpr
      rintro rfl
      exact absurd h (by decide)
    have hmin : (s == "minor") = false := by
      apply beq_eq_false_iff_ne.mpr
      rintro rfl
      exact absurd h (by decide)
    simp [findCommonProgressions, hmaj, hmin, h7]
  · intro s
    unfold findCommonProgressions
    split_ifs with h1 h2 h3 h4
    · decide
    · decide
    · decide
    · exact absurd (includes_m7_7 s h4) h3
    · decide

/-- Witness for C10 at the concrete suffix "m7b5". -/
theorem m7_progressions_witness :
    includes "m7b5" "m7" = true
    ∧ findCommonProgressions "m7b5" = ["I7-IV7-V7", "ii7-V7-I7"]
    ∧ findCommonProgressions "sus4" ≠ ["i7-iv7-v7", "ii7b5-V7-i7"] :=
  ⟨by decide, m7_progressions_unreachable.1 "m7b5" (by decide),
    m7_progressions_unreachable.2 "sus4"⟩
